import Mathlib

/-!
Verification of the time-interval model, parser and loader of `timewarrior-rs`
(`src/data.rs`), shallowly embedded in Lean.

Instants (`chrono::DateTime<Utc>`) are modelled as `Int`, counting whole
seconds since the Unix epoch; every instant the program can parse has whole
second precision, and `Duration::seconds(1)` becomes `oneSecond = 1`.
Fallible Rust functions returning `anyhow::Result` become `Except String`.
-/

/-- Duration::seconds(1), in the whole-second model of instants. -/
def oneSecond : Int := 1

/-- Model of `Except.isOk`: true exactly on `Except.ok`. -/
def except_ok {α : Type} (e : Except String α) : Bool :=
  match e with
  | .ok _ => true
  | .error _ => false

/-- Model of `struct Range { from: DateTime<Utc>, to: Option<DateTime<Utc>> }`
(src/data.rs lines 99-102). The Rust field `from` is a Lean keyword, hence `from_`. -/
structure Range where
  from_ : Int
  to_ : Option Int
deriving DecidableEq, Repr

/-- Model of `Range::new` (src/data.rs lines 128-138): an open range is always
accepted; a closed range requires `from + Duration::seconds(1) <= to`. -/
def Range.new (f : Int) (t : Option Int) : Except String Range :=
  match t with
  | none => .ok ⟨f, none⟩
  | some t' =>
    if f + oneSecond ≤ t' then .ok ⟨f, some t'⟩
    else .error "Range is invalid: from cannot be greater that to"

/-- Model of `Range::is_open` (src/data.rs lines 247-249). -/
def Range.is_open (r : Range) : Bool := r.to_.isNone

/-- Model of `Range::intersection` (src/data.rs lines 252-320), keeping the
source's exact control flow, including the duplicated `from_a > to_b` check
and the conversion of any construction failure to `None` via `.toOption`. -/
def Range.intersection (a b : Range) : Option Range :=
  if a.to_.isNone && b.to_.isNone then
    (Range.new (if a.from_ < b.from_ then b.from_ else a.from_) none).toOption
  else
    match a.to_ with
    | none =>
      (Range.new (if a.from_ < b.from_ then b.from_ else a.from_) b.to_).toOption
    | some ta =>
      if b.from_ > ta then none
      else
        match b.to_ with
        | none =>
          (Range.new (if a.from_ < b.from_ then b.from_ else a.from_) (some ta)).toOption
        | some tb =>
          if a.from_ > tb then none
          else if a.from_ > tb then none
          else
            (Range.new (if a.from_ > b.from_ then a.from_ else b.from_)
              (if ta > tb then some tb else some ta)).toOption

/-- Model of `Range::duration` (src/data.rs lines 323-330); `Utc::now()` is
passed explicitly as `now`. -/
def Range.duration (r : Range) (now : Int) : Int :=
  (match r.to_ with
   | some t => t
   | none => now) - r.from_

/-- Model of `Range::split_at` (src/data.rs lines 346-359); `Utc::now()` is
passed explicitly as `now`. Note the second half is rebuilt with the original
`self.to_` option, so an open input yields an open second half. -/
def Range.split_at (r : Range) (now : Int) (date : Int) : Except String (Range × Range) := do
  let to_ := match r.to_ with
             | some t => t
             | none => now
  let duration_from := date - r.from_
  let duration_to := to_ - date
  let a ← Range.new r.from_ (some (r.from_ + duration_from))
  let b ← Range.new (to_ - duration_to) r.to_
  .ok (a, b)

/-- Model of `Range::split` (src/data.rs lines 362-371). -/
def Range.split (r : Range) (now : Int) : Except String (Range × Range) :=
  let to_ := match r.to_ with
             | some t => t
             | none => now
  r.split_at now (r.from_ + (to_ - r.from_) / 2)

/-- C1: `Range::new(from, Some(to))` succeeds iff `from + 1s ≤ to`; it succeeds
exactly at `to = from + 1s`, fails at `to = from`, and `Range::new(from, None)`
always succeeds. -/
theorem c1_range_new_invariant (f t : Int) :
    (except_ok (Range.new f (some t)) = true ↔ f + oneSecond ≤ t)
    ∧ except_ok (Range.new f (some (f + oneSecond))) = true
    ∧ except_ok (Range.new f (some f)) = false
    ∧ except_ok (Range.new f none) = true := by
  refine ⟨?_, ?_, ?_, ?_⟩
  · simp only [Range.new, oneSecond]
    split_ifs with h <;> simp [except_ok] <;> omega
  · simp [Range.new, except_ok, oneSecond]
  · simp only [Range.new, oneSecond]
    split_ifs with h <;> simp [except_ok] <;> omega
  · simp [Range.new, except_ok]

/-- C3: `Range::intersection` is commutative: for every pair of `Range` values
(open or closed), `A.intersection(B) = B.intersection(A)`. -/
theorem c3_intersection_comm (a b : Range) :
    a.intersection b = b.intersection a := by
  rcases a with ⟨fa, ta⟩
  rcases b with ⟨fb, tb⟩
  rcases ta with _ | ta <;> rcases tb with _ | tb <;>
    simp only [Range.intersection, Range.new, oneSecond, Option.isNone_none, Option.isNone_some,
      Bool.and_true, Bool.and_false, Bool.true_and, Bool.false_and, if_true, if_false,
      reduceIte] <;>
    split_ifs <;>
    simp_all [Except.toOption, Range.new, oneSecond] <;>
    first
      | rfl
      | omega
      | (split_ifs <;> simp_all <;> omega)

/-- C4: intersection of two closed ranges, both satisfying the construction
invariant `from + 1s ≤ to`: it is `none` when they are disjoint
(`B.from > A.to` or `A.from > B.to`), `none` when they share only the boundary
instant `A.to = B.from`, and otherwise it is the result of rebuilding
`[max(A.from, B.from), min(A.to, B.to)]`, where a construction failure
converts to `none` (intersection is total). -/
theorem c4_intersection_closed (fa ta fb tb : Int)
    (ha : fa + oneSecond ≤ ta) (hb : fb + oneSecond ≤ tb) :
    ((fb > ta ∨ fa > tb) →
      (Range.mk fa (some ta)).intersection (Range.mk fb (some tb)) = none)
    ∧ (ta = fb →
      (Range.mk fa (some ta)).intersection (Range.mk fb (some tb)) = none)
    ∧ (¬(fb > ta ∨ fa > tb) →
      (Range.mk fa (some ta)).intersection (Range.mk fb (some tb))
        = (Range.new (max fa fb) (some (min ta tb))).toOption) := by
  refine ⟨?_, ?_, ?_⟩
  · intro h
    simp only [Range.intersection, oneSecond] at *
    split_ifs <;> simp_all <;> omega
  · intro h
    subst h
    simp only [Range.intersection, Range.new, oneSecond, Except.toOption] at *
    split_ifs <;> simp_all <;> omega
  · intro h
    push_neg at h
    obtain ⟨h1, h2⟩ := h
    have hm1 : (if fa > fb then fa else fb) = max fa fb := by
      split_ifs <;> omega
    have hm2 : (if ta > tb then (some tb : Option Int) else some ta) = some (min ta tb) := by
      split_ifs <;> simp only [Option.some.injEq] <;> omega
    simp only [Range.intersection, Option.isNone_some, Bool.false_and, Bool.false_eq_true,
      if_false]
    rw [if_neg (by omega : ¬ fb > ta), if_neg (by omega : ¬ fa > tb),
      if_neg (by omega : ¬ fa > tb), hm1, hm2]

/-- C4 witness: two overlapping closed ranges [0,10] and [5,20] intersect to
the rebuilt range [5,10]. -/
theorem c4_intersection_closed_witness :
    (0 : Int) + oneSecond ≤ 10 ∧ (5 : Int) + oneSecond ≤ 20
    ∧ (Range.mk 0 (some 10)).intersection (Range.mk 5 (some 20))
        = (Range.new (max 0 5) (some (min 10 20))).toOption :=
  ⟨by decide, by decide,
    (c4_intersection_closed 0 10 5 20 (by decide) (by decide)).2.2 (by decide)⟩

/-- C9 counterexample: for the open range starting at 0 with now = 100, the
instant 200 falls outside [from, now], yet `split_at` succeeds (the second
half is rebuilt as the always-valid open range), contradicting the claim that
`split_at` fails whenever the instant falls outside the range. -/
theorem c9_split_at_counterexample :
    (100 : Int) < 200
    ∧ except_ok ((Range.mk 0 none).split_at 100 200) = true := by
  constructor
  · decide
  · rfl

/-- C9 amended: for a closed range `[f, t2]`, `split_at` at `d` succeeds iff
`f + 1s ≤ d` and `d + 1s ≤ t2` (equivalently: `d` within the range and both
halves at least one second long), returning `([f, d], [d, t2])`; for an open
range, it succeeds iff `f + 1s ≤ d` regardless of `now` — the second half is
rebuilt as the open range starting at `d`, which is always valid, so an
instant beyond `now` is not rejected. -/
theorem c9_split_at_characterization (now f t2 d : Int) :
    ((f + oneSecond ≤ d ∧ d + oneSecond ≤ t2) →
      (Range.mk f (some t2)).split_at now d = .ok (⟨f, some d⟩, ⟨d, some t2⟩))
    ∧ (¬(f + oneSecond ≤ d ∧ d + oneSecond ≤ t2) →
      except_ok ((Range.mk f (some t2)).split_at now d) = false)
    ∧ (f + oneSecond ≤ d →
      (Range.mk f none).split_at now d = .ok (⟨f, some d⟩, ⟨d, none⟩))
    ∧ (¬ f + oneSecond ≤ d →
      except_ok ((Range.mk f none).split_at now d) = false) := by
  refine ⟨?_, ?_, ?_, ?_⟩
  · rintro ⟨h1, h2⟩
    simp only [Range.split_at, Range.new, oneSecond] at *
    have e1 : f + (d - f) = d := by omega
    have e2 : t2 - (t2 - d) = d := by omega
    rw [e1, e2]
    rw [if_pos (by omega), if_pos (by omega)]
    rfl
  · intro h
    simp only [Range.split_at, Range.new, oneSecond] at h ⊢
    have e1 : f + (d - f) = d := by omega
    have e2 : t2 - (t2 - d) = d := by omega
    rw [e1, e2]
    rcases not_and_or.mp h with hc | hc
    · rw [if_neg (by omega : ¬ f + 1 ≤ d)]
      rfl
    · by_cases hc1 : f + 1 ≤ d
      · rw [if_pos hc1, if_neg (by omega : ¬ d + 1 ≤ t2)]
        rfl
      · rw [if_neg hc1]
        rfl
  · intro h
    simp only [Range.split_at, Range.new, oneSecond] at *
    have e1 : f + (d - f) = d := by omega
    have e2 : now - (now - d) = d := by omega
    rw [e1, e2, if_pos (by omega)]
    rfl
  · intro h
    simp only [Range.split_at, Range.new, oneSecond] at *
    have e1 : f + (d - f) = d := by omega
    rw [e1, if_neg (by omega)]
    rfl

/-- C9 witness: splitting the closed range [0,10] at 5 (with now = 50) yields
([0,5], [5,10]). -/
theorem c9_split_at_characterization_witness :
    ((0 : Int) + oneSecond ≤ 5 ∧ (5 : Int) + oneSecond ≤ 10)
    ∧ (Range.mk 0 (some 10)).split_at 50 5 = .ok (⟨0, some 5⟩, ⟨5, some 10⟩) :=
  ⟨by decide, (c9_split_at_characterization 50 0 10 5).1 ⟨by decide, by decide⟩⟩

/-!
Parser embedding. The nom parsers of src/data.rs lines 24-95 work on `&str`;
here they work on `List Char`, returning `Option (rest × value)` where nom
returns `IResult = Result<(rest, value), Err>`.
-/

/-- Result type of a nom parser over the remaining input. -/
def NomP (α : Type) : Type := List Char → Option (List Char × α)

/-- Model of nom `tag`: succeeds iff the literal is a prefix, consuming it. -/
def ptag (t : List Char) : NomP (List Char) := fun inp =>
  if t.isPrefixOf inp then some (inp.drop t.length, t) else none

/-- Model of nom `char`: consumes exactly the given character. -/
def nom_char (c : Char) : NomP Char := fun inp =>
  match inp with
  | [] => none
  | x :: rest => if x = c then some (rest, c) else none

/-- Model of nom `take_while1`: the longest nonempty prefix of characters
satisfying the predicate; fails when it would be empty. -/
def take_while1 (p : Char → Bool) : NomP (List Char) := fun inp =>
  let t := inp.takeWhile p
  if t.isEmpty then none else some (inp.drop t.length, t)

/-- Model of nom `alphanumeric0`: the longest (possibly empty) prefix of ASCII
alphanumeric characters. -/
def alphanumeric0 : NomP (List Char) := fun inp =>
  some (inp.drop (inp.takeWhile Char.isAlphanum).length, inp.takeWhile Char.isAlphanum)

/-- Model of nom `map`. -/
def pmap {α β : Type} (p : NomP α) (f : α → β) : NomP β := fun inp =>
  match p inp with
  | none => none
  | some (rest, v) => some (rest, f v)

/-- Model of nom `map_opt`: the function returning `None` fails the parser. -/
def map_opt {α β : Type} (p : NomP α) (f : α → Option β) : NomP β := fun inp =>
  match p inp with
  | none => none
  | some (rest, v) =>
    match f v with
    | none => none
    | some b => some (rest, b)

/-- Model of nom `map_res`: the function returning an error fails the parser. -/
def map_res {α β : Type} (p : NomP α) (f : α → Except String β) : NomP β := fun inp =>
  match p inp with
  | none => none
  | some (rest, v) =>
    match f v with
    | .error _ => none
    | .ok b => some (rest, b)

/-- Model of nom `preceded`. -/
def preceded {α β : Type} (p : NomP α) (q : NomP β) : NomP β := fun inp =>
  match p inp with
  | none => none
  | some (rest, _) => q rest

/-- Model of nom `separated_pair`. -/
def separated_pair {α β γ : Type} (p : NomP α) (s : NomP γ) (q : NomP β) :
    NomP (α × β) := fun inp =>
  match p inp with
  | none => none
  | some (r1, a) =>
    match s r1 with
    | none => none
    | some (r2, _) =>
      match q r2 with
      | none => none
      | some (r3, b) => some (r3, (a, b))

/-- Model of nom `delimited`. -/
def delimited {α β γ : Type} (l : NomP α) (m : NomP β) (r : NomP γ) :
    NomP β := fun inp =>
  match l inp with
  | none => none
  | some (r1, _) =>
    match m r1 with
    | none => none
    | some (r2, v) =>
      match r r2 with
      | none => none
      | some (r3, _) => some (r3, v)

/-- Model of nom `alt` with two branches. -/
def alt2 {α : Type} (p q : NomP α) : NomP α := fun inp =>
  match p inp with
  | some x => some x
  | none => q inp

/-- Model of nom `alt` with three branches. -/
def alt3 {α : Type} (p q r : NomP α) : NomP α := fun inp =>
  match p inp with
  | some x => some x
  | none => alt2 q r inp

/-- Model of Rust `str::trim`; Unicode whitespace is approximated by the ASCII
whitespace characters of `Char.isWhitespace`. -/
def trimChars (cs : List Char) : List Char :=
  ((cs.dropWhile Char.isWhitespace).reverse.dropWhile Char.isWhitespace).reverse

/-- Leap-year rule of the proleptic Gregorian calendar used by chrono. -/
def is_leap (y : Int) : Bool :=
  (y % 4 == 0 && y % 100 != 0) || y % 400 == 0

/-- Number of days of month `m` of year `y`. -/
def days_in_month (y m : Int) : Int :=
  if m = 2 then (if is_leap y then 29 else 28)
  else if m = 4 ∨ m = 6 ∨ m = 9 ∨ m = 11 then 30 else 31

/-- Days since 1970-01-01 of the civil date `y-m-d` (Howard Hinnant's
days-from-civil algorithm, the arithmetic chrono's date types implement). -/
def days_from_civil (y m d : Int) : Int :=
  let y2 := if m ≤ 2 then y - 1 else y
  let era := Int.ediv y2 400
  let yoe := y2 - era * 400
  let mp := m + (if m > 2 then -3 else 9)
  let doy := Int.ediv (153 * mp + 2) 5 + d - 1
  let doe := yoe * 365 + Int.ediv yoe 4 - Int.ediv yoe 100 + doy
  era * 146097 + doe - 719468

/-- Numeric value of an ASCII digit. -/
def dval (c : Char) : Int := (c.toNat : Int) - 48

/-- Model of `NaiveDateTime::parse_from_str(v, "%Y%m%dT%H%M%SZ")` followed by
the `DateTime<Utc>` conversion: a 16-character literal `YYYYMMDDThhmmssZ`
whose calendar date and time of day are valid, mapped to seconds since the
Unix epoch. Chrono's optional year sign and leap-second 60 are not modelled;
no instant the repository's claims mention uses them. -/
def parseDateTime (cs : List Char) : Option Int :=
  match cs with
  | [y1, y2, y3, y4, mo1, mo2, d1, d2, tc, h1, h2, mi1, mi2, s1, s2, zc] =>
    if y1.isDigit && y2.isDigit && y3.isDigit && y4.isDigit && mo1.isDigit && mo2.isDigit &&
       d1.isDigit && d2.isDigit && tc == 'T' && h1.isDigit && h2.isDigit && mi1.isDigit &&
       mi2.isDigit && s1.isDigit && s2.isDigit && zc == 'Z' then
      let y := dval y1 * 1000 + dval y2 * 100 + dval y3 * 10 + dval y4
      let mo := dval mo1 * 10 + dval mo2
      let d := dval d1 * 10 + dval d2
      let h := dval h1 * 10 + dval h2
      let mi := dval mi1 * 10 + dval mi2
      let s := dval s1 * 10 + dval s2
      if 1 ≤ mo ∧ mo ≤ 12 ∧ 1 ≤ d ∧ d ≤ days_in_month y mo ∧ h ≤ 23 ∧ mi ≤ 59 ∧ s ≤ 59 then
        some (days_from_civil y mo d * 86400 + h * 3600 + mi * 60 + s)
      else none
    else none
  | _ => none

/-- Model of `parse_date` (src/data.rs lines 42-51): take the characters up to
the next space, trim them, and parse them as a `%Y%m%dT%H%M%SZ` datetime. -/
def parse_date : NomP Int :=
  map_opt (take_while1 (fun c => c != ' ')) (fun v => parseDateTime (trimChars v))

/-- One tag token of `parse_tags` (src/data.rs lines 24-40): either a
double-quoted run of non-quote characters, or a nonempty run of characters
that are neither a quote nor a space. -/
def tag_elem : NomP (List Char) :=
  alt2
    (delimited (nom_char '"') (take_while1 (fun c => c != '"')) (nom_char '"'))
    (take_while1 (fun c => c != '"' && c != ' '))

theorem takeWhile_length_le (p : Char → Bool) (l : List Char) :
    (l.takeWhile p).length ≤ l.length := by
  induction l with
  | nil => simp
  | cons a t ih =>
    simp only [List.takeWhile]
    cases p a <;> simp <;> omega

/-- A parser strictly consumes input: success leaves a strictly shorter rest. -/
def Shrinks {α : Type} (p : NomP α) : Prop :=
  ∀ inp rest v, p inp = some (rest, v) → rest.length < inp.length

theorem shrinks_take_while1 (p : Char → Bool) : Shrinks (take_while1 p) := by
  intro inp rest v h
  simp only [take_while1] at h
  by_cases he : (inp.takeWhile p).isEmpty = true
  · rw [if_pos he] at h
    simp at h
  · rw [if_neg he] at h
    simp only [Option.some.injEq, Prod.mk.injEq] at h
    obtain ⟨h1, h2⟩ := h
    subst h1
    have hl : 0 < (inp.takeWhile p).length := by
      cases hq : inp.takeWhile p with
      | nil => rw [hq] at he; simp at he
      | cons a l => simp
    have hle := takeWhile_length_le p inp
    rw [List.length_drop]
    omega

theorem shrinks_nom_char (c : Char) : Shrinks (nom_char c) := by
  intro inp rest v h
  cases inp with
  | nil => simp [nom_char] at h
  | cons a l =>
    simp only [nom_char] at h
    by_cases he : a = c
    · rw [if_pos he] at h
      simp only [Option.some.injEq, Prod.mk.injEq] at h
      obtain ⟨h1, h2⟩ := h
      subst h1
      simp
    · rw [if_neg he] at h
      simp at h

theorem shrinks_delimited {α β γ : Type} {l : NomP α} {m : NomP β} {r : NomP γ}
    (hl : Shrinks l) (hm : Shrinks m) (hr : Shrinks r) :
    Shrinks (delimited l m r) := by
  intro inp rest v h
  simp only [delimited] at h
  cases h1 : l inp with
  | none => simp [h1] at h
  | some x =>
    obtain ⟨r1, a⟩ := x
    simp only [h1] at h
    cases h2 : m r1 with
    | none => simp [h2] at h
    | some y =>
      obtain ⟨r2, b⟩ := y
      simp only [h2] at h
      cases h3 : r r2 with
      | none => simp [h3] at h
      | some z =>
        obtain ⟨r3, c⟩ := z
        simp only [h3, Option.some.injEq, Prod.mk.injEq] at h
        obtain ⟨e1, e2⟩ := h
        subst e1
        have := hl _ _ _ h1
        have := hm _ _ _ h2
        have := hr _ _ _ h3
        omega

theorem shrinks_alt2 {α : Type} {p q : NomP α} (hp : Shrinks p) (hq : Shrinks q) :
    Shrinks (alt2 p q) := by
  intro inp rest v h
  simp only [alt2] at h
  cases h1 : p inp with
  | none =>
    simp only [h1] at h
    exact hq _ _ _ h
  | some x =>
    obtain ⟨r1, a⟩ := x
    simp only [h1, Option.some.injEq, Prod.mk.injEq] at h
    obtain ⟨e1, e2⟩ := h
    subst e1
    exact hp _ _ _ h1

theorem shrinks_tag_elem : Shrinks tag_elem :=
  shrinks_alt2
    (shrinks_delimited (shrinks_nom_char _) (shrinks_take_while1 _) (shrinks_nom_char _))
    (shrinks_take_while1 _)

/-- One iteration of the nom `separated_list0` loop: a space separator, then a
tag token; `none` when either fails, in which case the separator is not
consumed. -/
def tags_step (inp : List Char) : Option (List Char × List Char) :=
  match nom_char ' ' inp with
  | none => none
  | some (rest2, _) =>
    match tag_elem rest2 with
    | none => none
    | some (rest3, v) => some (rest3, v)

/-- Inner loop of nom `separated_list0(char(' '), tag-token)` as used by
`parse_tags` (src/data.rs lines 24-40): repeatedly consume a space separator
followed by a token; on the first failure of either, stop without consuming
the separator. The separator always consumes a character, so nom's loop
terminates and its infinite-loop guard never fires; the fuel argument makes
the recursion structural, and `tags_loop_fuel` below shows any fuel at least
the input length gives the loop's exact behavior. -/
def tags_loop : Nat → List Char → List (List Char) → List Char × List (List Char)
  | 0, inp, acc => (inp, acc)
  | fuel + 1, inp, acc =>
    match tags_step inp with
    | none => (inp, acc)
    | some (rest3, v) => tags_loop fuel rest3 (acc ++ [v])

theorem tags_step_length {inp rest3 v : List Char}
    (h : tags_step inp = some (rest3, v)) : rest3.length + 2 ≤ inp.length := by
  simp only [tags_step] at h
  cases h1 : nom_char ' ' inp with
  | none => simp [h1] at h
  | some x =>
    obtain ⟨rest2, c⟩ := x
    simp only [h1] at h
    cases h2 : tag_elem rest2 with
    | none => simp [h2] at h
    | some y =>
      obtain ⟨r3, v3⟩ := y
      simp only [h2, Option.some.injEq, Prod.mk.injEq] at h
      obtain ⟨e1, e2⟩ := h
      subst e1
      have ha := shrinks_nom_char ' ' _ _ _ h1
      have hb := shrinks_tag_elem _ _ _ h2
      omega

/-- Every loop iteration consumes at least two characters, so fuel equal to
the input length never runs out: below that bound the result is
fuel-independent, making `tags_loop inp.length` the exact loop of nom. -/
theorem tags_loop_fuel :
    ∀ (fuel fuel' : Nat) (inp : List Char) (acc : List (List Char)),
      inp.length ≤ fuel → inp.length ≤ fuel' →
      tags_loop fuel inp acc = tags_loop fuel' inp acc := by
  intro fuel
  induction fuel using Nat.strong_induction_on with
  | _ fuel ih =>
    intro fuel' inp acc h h'
    match fuel, fuel' with
    | 0, 0 => rfl
    | 0, g + 1 =>
      have he : inp = [] := List.length_eq_zero.mp (by omega)
      subst he
      simp [tags_loop, tags_step, nom_char]
    | f + 1, 0 =>
      have he : inp = [] := List.length_eq_zero.mp (by omega)
      subst he
      simp [tags_loop, tags_step, nom_char]
    | f + 1, g + 1 =>
      simp only [tags_loop]
      cases h1 : tags_step inp with
      | none => rfl
      | some x =>
        obtain ⟨rest3, v⟩ := x
        have hl := tags_step_length h1
        exact ih f (by omega) g rest3 (acc ++ [v]) (by omega) (by omega)

/-- Model of `parse_tags` (src/data.rs lines 24-40): zero or more space
separated tag tokens; never fails. -/
def parse_tags : NomP (List (List Char)) := fun inp =>
  match tag_elem inp with
  | none => some (inp, [])
  | some (rest, v) => some (tags_loop rest.length rest [v])

deriving instance DecidableEq for Except

/-- Model of `struct TimeEntry` (src/data.rs lines 425-429). -/
structure TimeEntry where
  range : Range
  tags : List String
  id : Nat
deriving DecidableEq, Repr

/-- Results of the calendar-relative constructors `Range::today`,
`Range::yesterday`, `Range::current_week`, `Range::last_week`,
`Range::current_month` and `Range::last_month` (src/data.rs lines 141-244).
They read the wall clock and the system timezone (`Local::today()`), so the
embedding passes their outcomes as an environment, exactly as a fixed clock
would be injected for testing. -/
structure PeriodEnv where
  today : Except String Range
  yesterday : Except String Range
  current_week : Except String Range
  last_week : Except String Range
  current_month : Except String Range
  last_month : Except String Range

/-- Model of `Range::from_period_str` (src/data.rs lines 105-115). -/
def Range.from_period_str (env : PeriodEnv) (period : List Char) :
    Except String Range :=
  if period = "today".data then env.today
  else if period = "yesterday".data then env.yesterday
  else if period = "week".data then env.current_week
  else if period = "lastweek".data then env.last_week
  else if period = "month".data then env.current_month
  else if period = "lastmonth".data then env.last_month
  else .error ""

/-- Model of `parse_range` (src/data.rs lines 69-78): a closed range literal,
an open range literal, or a colon-prefixed named period, tried in order. -/
def parse_range (env : PeriodEnv) : NomP Range :=
  alt3
    (map_res (separated_pair parse_date (ptag " - ".data) parse_date)
      (fun ft => Range.new ft.1 (some ft.2)))
    (map_res parse_date (fun f => Range.new f none))
    (preceded (nom_char ':') (map_res alphanumeric0 (Range.from_period_str env)))

/-- Model of `parse_entry` (src/data.rs lines 80-95): `"inc "`, a range,
`" # "`, then the tag list; the id is initialized to 0. -/
def parse_entry (env : PeriodEnv) : NomP TimeEntry :=
  preceded (ptag "inc ".data)
    (pmap (separated_pair (parse_range env) (ptag " # ".data) parse_tags)
      (fun t => TimeEntry.mk t.1 (t.2.map (fun cs => String.mk cs)) 0))

/-- Model of `impl FromStr for Range` (src/data.rs lines 374-397): the parse
must consume the entire input, and an open range must start at least one
second before `Utc::now()`, which is passed explicitly as `now`. -/
def Range.from_str (env : PeriodEnv) (now : Int) (s : String) :
    Except String Range :=
  match parse_range env s.data with
  | none => .error ("Cannot parse range " ++ s)
  | some (st, r) =>
    if !st.isEmpty then .error ("Cannot parse range " ++ s)
    else
      match r.to_ with
      | none =>
        if oneSecond ≤ now - r.from_ then .ok r
        else .error "From must be less than now - 1s"
      | some _ => .ok r

/-- Model of `impl FromStr for TimeEntry` (src/data.rs lines 454-463): note
the `Ok((_, e))` pattern discards any unconsumed rest of the input. -/
def TimeEntry.from_str (env : PeriodEnv) (s : String) : Except String TimeEntry :=
  match parse_entry env s.data with
  | some (_, e) => .ok e
  | none => .error ("Cannot parse " ++ s)

/-- Concrete period environment for closed evaluations; the inputs evaluated
with it never reach the named-period branch, so the error results are never
consulted. -/
def env0 : PeriodEnv :=
  ⟨.error "", .error "", .error "", .error "", .error "", .error ""⟩

example : TimeEntry.from_str env0 "inc 20220101T120000Z - 20220101T130000Z # work"
    = .ok ⟨⟨1641038400, some 1641042000⟩, ["work"], 0⟩ := by decide

example : except_ok (TimeEntry.from_str env0 "") = false := by decide

example : TimeEntry.from_str env0 "inc 20220101T120000Z # tag1 \"tag 2\" t3"
    = .ok ⟨⟨1641038400, none⟩, ["tag1", "tag 2", "t3"], 0⟩ := by decide

/-- Model of the file-name pattern of `Work::load_range` (src/data.rs line
493), the regex `^(?P<y>\d{4})-(?P<m>\d{2}).data$`: four digits, a hyphen,
two digits, then an UNESCAPED dot — matching any character except a newline —
followed by the literal `data`. The Unicode digit class is modelled as ASCII
digits. -/
def file_name_matches (name : List Char) : Bool :=
  match name with
  | [y1, y2, y3, y4, hy, m1, m2, dot, c1, c2, c3, c4] =>
    y1.isDigit && y2.isDigit && y3.isDigit && y4.isDigit && hy == '-' &&
    m1.isDigit && m2.isDigit && dot != '\n' &&
    c1 == 'd' && c2 == 'a' && c3 == 't' && c4 == 'a'
  | _ => false

/-- Model of `Work::load_entries_from_file` (src/data.rs lines 477-486): every
line of the file — blank lines included — is parsed as a `TimeEntry`, and the
first failure aborts the whole load. A file is its list of lines. -/
def load_entries_from_file (env : PeriodEnv) :
    List String → Except String (List TimeEntry)
  | [] => .ok []
  | l :: rest =>
    match TimeEntry.from_str env l with
    | .error e => .error e
    | .ok en =>
      match load_entries_from_file env rest with
      | .error e => .error e
      | .ok es => .ok (en :: es)

/-- Directory scan of `Work::load_range` (src/data.rs lines 495-500): the
entries of every file whose name matches the pattern, concatenated in
directory-iteration order; other files are skipped. A directory is a list of
(file name, lines) pairs standing for the unspecified `read_dir` order. -/
def collect_entries (env : PeriodEnv) :
    List (String × List String) → Except String (List TimeEntry)
  | [] => .ok []
  | (name, lines) :: rest =>
    if file_name_matches name.data then
      match load_entries_from_file env lines with
      | .error e => .error e
      | .ok es =>
        match collect_entries env rest with
        | .error e => .error e
        | .ok more => .ok (es ++ more)
    else collect_entries env rest

/-- The comparator of `Work::load_range` (src/data.rs lines 502-510): `a` may
precede `b` exactly when the comparator does not return `Greater`, i.e. when
`b.range.from <= a.range.from` — descending order of `from`. -/
def entry_ord (a b : TimeEntry) : Prop := b.range.from_ ≤ a.range.from_

instance : DecidableRel entry_ord :=
  fun a b => inferInstanceAs (Decidable (_ ≤ _))

instance : IsTotal TimeEntry entry_ord :=
  ⟨fun a b => le_total b.range.from_ a.range.from_⟩

instance : IsTrans TimeEntry entry_ord :=
  ⟨fun _ _ _ h1 h2 => le_trans h2 h1⟩

/-- The id assignment of `Work::load_range` (src/data.rs lines 512-516):
ids count up from `i` along the list. -/
def assign_ids : Nat → List TimeEntry → List TimeEntry
  | _, [] => []
  | i, e :: rest => { e with id := i } :: assign_ids (i + 1) rest

/-- Model of `struct Work` (src/data.rs lines 472-474). -/
structure Work where
  entries : List TimeEntry
deriving DecidableEq, Repr

/-- Model of `Work::load_range` (src/data.rs lines 490-528): collect entries
of matching files, sort by `from` descending, assign ids 1, 2, 3, … in sorted
order, then — when a filter range is given — keep exactly the entries
intersecting it. Rust's `sort_by` is a stable sort; a stable sort by a total
preorder has a unique result, so the stable `insertionSort` by the same
comparator is the exact value `sort_by` produces. -/
def Work.load_range (env : PeriodEnv) (dir : List (String × List String))
    (filter : Option Range) : Except String Work :=
  match collect_entries env dir with
  | .error e => .error e
  | .ok es =>
    let numbered := assign_ids 1 (List.insertionSort entry_ord es)
    match filter with
    | some r => .ok ⟨numbered.filter (fun e => (e.range.intersection r).isSome)⟩
    | none => .ok ⟨numbered⟩

/-- Model of `Work::load_all` (src/data.rs lines 531-533). -/
def Work.load_all (env : PeriodEnv) (dir : List (String × List String)) :
    Except String Work :=
  Work.load_range env dir none

example :
    Work.load_range env0
      [("2022-07.data", ["inc 20220101T120000Z - 20220101T130000Z # work"])] none
    = .ok ⟨[⟨⟨1641038400, some 1641042000⟩, ["work"], 1⟩]⟩ := by decide

example : file_name_matches "2022-07.data".data = true := by decide

example : file_name_matches "2022-07xdata".data = true := by decide

example : file_name_matches "x2022-07.data".data = false := by decide

/-- C7 counterexample: a matching data file whose lines are one well-formed
entry line and one blank line makes `Work::load_range` fail — the loader
parses every line, blank ones included, so blank lines are not ignored. -/
theorem c7_blank_line_counterexample :
    except_ok (Work.load_range env0
      [("2022-07.data", ["inc 20220101T120000Z - 20220101T130000Z # work", ""])]
      none) = false := by decide

/-- C7 amended: blank lines are not skipped during loading: every line of a
matching file, blank or not, is parsed as an entry, so a blank line aborts
the load with an error; the load of a file succeeds when every one of its
lines parses as an entry. -/
theorem c7_blank_lines_error (env : PeriodEnv) (lines : List String) :
    ("" ∈ lines → except_ok (load_entries_from_file env lines) = false)
    ∧ ((∀ l ∈ lines, except_ok (TimeEntry.from_str env l) = true) →
        except_ok (load_entries_from_file env lines) = true) := by
  refine ⟨?_, ?_⟩
  · induction lines with
    | nil => intro hmem; simp at hmem
    | cons l rest ih =>
      intro hmem
      rcases List.mem_cons.mp hmem with he | he
      · subst he
        rfl
      · simp only [load_entries_from_file]
        cases hf : TimeEntry.from_str env l with
        | error e => rfl
        | ok en =>
          have ih' := ih he
          cases hr : load_entries_from_file env rest with
          | error e2 => rfl
          | ok es =>
            rw [hr] at ih'
            simp [except_ok] at ih'
  · induction lines with
    | nil => intro _; rfl
    | cons l rest ih =>
      intro hall
      have hl := hall l (by simp)
      have hrest := ih (fun x hx => hall x (List.mem_cons_of_mem _ hx))
      simp only [load_entries_from_file]
      cases hf : TimeEntry.from_str env l with
      | error e =>
        rw [hf] at hl
        simp [except_ok] at hl
      | ok en =>
        cases hr : load_entries_from_file env rest with
        | error e2 =>
          rw [hr] at hrest
          simp [except_ok] at hrest
        | ok es => rfl

/-- C7 witness: the blank line in a file of otherwise well-formed lines makes
the file load fail. -/
theorem c7_blank_lines_error_witness :
    ("" ∈ ["inc 20220101T120000Z - 20220101T130000Z # work", ""])
    ∧ except_ok (load_entries_from_file env0
        ["inc 20220101T120000Z - 20220101T130000Z # work", ""]) = false :=
  ⟨by simp, (c7_blank_lines_error env0
      ["inc 20220101T120000Z - 20220101T130000Z # work", ""]).1 (by simp)⟩

/-- C8 counterexample: the dot of the file-name regex is unescaped, so
`2022-07xdata` — whose name does not have the literal extension `.data` — is
NOT ignored: with an unparsable line it fails the load, and with a
well-formed line it contributes an entry. -/
theorem c8_file_pattern_counterexample :
    file_name_matches "2022-07xdata".data = true
    ∧ except_ok (Work.load_range env0 [("2022-07xdata", ["garbage"])] none) = false
    ∧ Work.load_range env0
        [("2022-07xdata", ["inc 20220101T120000Z - 20220101T130000Z # work"])] none
      = .ok ⟨[⟨⟨1641038400, some 1641042000⟩, ["work"], 1⟩]⟩ := by
  refine ⟨by decide, by decide, by decide⟩

/-- C8 amended: `Work::load_range` reads entries from exactly those files
whose name is four digits, a hyphen, two digits, ANY character other than a
newline (the regex dot is unescaped, so the separator before `data` need not
be a literal dot), then the literal `data`; all other files are silently
ignored, contributing neither entries nor errors. -/
theorem c8_file_pattern (env : PeriodEnv) (dir : List (String × List String)) :
    (∀ filter, Work.load_range env dir filter
      = Work.load_range env (dir.filter (fun f => file_name_matches f.1.data)) filter)
    ∧ file_name_matches "2022-07.data".data = true
    ∧ file_name_matches "2022-07xdata".data = true
    ∧ file_name_matches "2022-7.data".data = false
    ∧ file_name_matches "2022-07.dat".data = false := by
  refine ⟨?_, by decide, by decide, by decide, by decide⟩
  intro filter
  have hc : collect_entries env dir
      = collect_entries env (dir.filter (fun f => file_name_matches f.1.data)) := by
    induction dir with
    | nil => rfl
    | cons f rest ih =>
      obtain ⟨name, lines⟩ := f
      by_cases hm : file_name_matches name.data
      · rw [List.filter_cons]
        simp only [hm, if_pos]
        simp only [collect_entries, hm, if_pos, ih]
      · rw [List.filter_cons]
        simp only [collect_entries, hm, Bool.false_eq_true, if_false, ih]
  simp only [Work.load_range, hc]

theorem assign_ids_length (es : List TimeEntry) :
    ∀ n : Nat, (assign_ids n es).length = es.length := by
  induction es with
  | nil => intro n; rfl
  | cons e rest ih => intro n; simp [assign_ids, ih]

theorem assign_ids_get (es : List TimeEntry) :
    ∀ (n i : Nat) (hi : i < (assign_ids n es).length),
      ((assign_ids n es).get ⟨i, hi⟩).id = n + i := by
  induction es with
  | nil =>
    intro n i hi
    simp [assign_ids] at hi
  | cons e rest ih =>
    intro n i hi
    cases i with
    | zero => rfl
    | succ j =>
      have hj : j < (assign_ids (n + 1) rest).length := by
        simp only [assign_ids, List.length_cons] at hi
        omega
      have := ih (n + 1) j hj
      simp only [assign_ids, List.get_cons_succ]
      rw [this]
      omega

theorem assign_ids_map_range (es : List TimeEntry) :
    ∀ n : Nat, (assign_ids n es).map (fun e => e.range)
      = es.map (fun e => e.range) := by
  induction es with
  | nil => intro n; rfl
  | cons e rest ih => intro n; simp [assign_ids, ih]

/-- C2: when `Work::load_range` succeeds, the unfiltered entries are sorted by
`range.from` descending, their display ids are 1, 2, …, N in that sorted
order (id 1 = most recent), and the filtered load of the same directory keeps
exactly the entries whose intersection with the filter is `Some`, each
retaining its originally assigned id without renumbering. -/
theorem c2_load_range_order_ids_filter (env : PeriodEnv)
    (dir : List (String × List String)) (flt : Range) (w w' : Work)
    (h : Work.load_range env dir none = .ok w)
    (h' : Work.load_range env dir (some flt) = .ok w') :
    w.entries.Pairwise (fun a b => b.range.from_ ≤ a.range.from_)
    ∧ (∀ i (hi : i < w.entries.length), (w.entries.get ⟨i, hi⟩).id = i + 1)
    ∧ w'.entries = w.entries.filter (fun e => (e.range.intersection flt).isSome) := by
  cases hc : collect_entries env dir with
  | error e =>
    unfold Work.load_range at h
    rw [hc] at h
    exact absurd h (by simp)
  | ok es =>
    unfold Work.load_range at h h'
    simp only [hc, Except.ok.injEq] at h h'
    subst h
    subst h'
    refine ⟨?_, ?_, ?_⟩
    · have hs : List.Pairwise entry_ord (List.insertionSort entry_ord es) :=
        List.sorted_insertionSort entry_ord es
      have hmap : List.Pairwise (fun x y : Range => y.from_ ≤ x.from_)
          ((List.insertionSort entry_ord es).map (fun e => e.range)) :=
        List.pairwise_map.mpr hs
      rw [← assign_ids_map_range (List.insertionSort entry_ord es) 1] at hmap
      exact List.pairwise_map.mp hmap
    · intro i hi
      have hg := assign_ids_get (List.insertionSort entry_ord es) 1 i hi
      rw [hg]
      omega
    · rfl

/-- C2 witness: a one-file directory loads to a single entry with id 1, and an
all-encompassing open filter keeps it with its id. -/
theorem c2_load_range_order_ids_filter_witness :
    (Work.mk [⟨⟨1641038400, some 1641042000⟩, ["work"], 1⟩]).entries.Pairwise
        (fun a b => b.range.from_ ≤ a.range.from_)
    ∧ (∀ i (hi : i < (Work.mk
          [⟨⟨1641038400, some 1641042000⟩, ["work"], 1⟩]).entries.length),
        ((Work.mk [⟨⟨1641038400, some 1641042000⟩, ["work"], 1⟩]).entries.get
          ⟨i, hi⟩).id = i + 1)
    ∧ (Work.mk [⟨⟨1641038400, some 1641042000⟩, ["work"], 1⟩]).entries
        = (Work.mk [⟨⟨1641038400, some 1641042000⟩, ["work"], 1⟩]).entries.filter
            (fun e => (e.range.intersection ⟨0, none⟩).isSome) :=
  c2_load_range_order_ids_filter env0
    [("2022-07.data", ["inc 20220101T120000Z - 20220101T130000Z # work"])]
    ⟨0, none⟩
    (Work.mk [⟨⟨1641038400, some 1641042000⟩, ["work"], 1⟩])
    (Work.mk [⟨⟨1641038400, some 1641042000⟩, ["work"], 1⟩])
    (by decide) (by decide)

/-- C5 counterexample: `TimeEntry::from_str` accepts
`inc 20220101T120000Z - 20220101T130000Z # a"b` although the grammar only
matches a strict prefix, leaving the two characters `"b` unconsumed — the
`Ok((_, e))` pattern of the source discards them, so trailing unparsed
characters do NOT cause a parse error for entry lines. -/
theorem c5_trailing_counterexample :
    except_ok (TimeEntry.from_str env0
      "inc 20220101T120000Z - 20220101T130000Z # a\"b") = true
    ∧ (parse_entry env0
        "inc 20220101T120000Z - 20220101T130000Z # a\"b".data).map (fun p => p.1)
      = some ['"', 'b'] := by
  refine ⟨by decide, by decide⟩

/-- C5 amended: `Range::from_str` does consume the full input — it succeeds
only when the range grammar matched the entire string, and any leftover makes
it fail — but `TimeEntry::from_str` does not: whenever the entry grammar
matches a prefix, it returns that entry and silently discards the unconsumed
rest. -/
theorem c5_full_consumption (env : PeriodEnv) (now : Int) (s : String) :
    (∀ r, Range.from_str env now s = .ok r → parse_range env s.data = some ([], r))
    ∧ (∀ rest e, parse_entry env s.data = some (rest, e) →
        TimeEntry.from_str env s = .ok e) := by
  constructor
  · intro r hr
    unfold Range.from_str at hr
    cases hp : parse_range env s.data with
    | none =>
      rw [hp] at hr
      exact absurd hr (by simp)
    | some x =>
      obtain ⟨st, r2⟩ := x
      simp only [hp] at hr
      by_cases hst : st.isEmpty = true
      · have hst' : st = [] := List.isEmpty_iff.mp hst
        subst hst'
        rw [if_neg (by simp)] at hr
        cases ht : r2.to_ with
        | none =>
          rw [ht] at hr
          by_cases hcond : oneSecond ≤ now - r2.from_
          · rw [if_pos hcond] at hr
            simp only [Except.ok.injEq] at hr
            subst hr
            rfl
          · rw [if_neg hcond] at hr
            exact absurd hr (by simp)
        | some t2 =>
          rw [ht] at hr
          simp only [Except.ok.injEq] at hr
          subst hr
          rfl
      · rw [if_pos (by simp [Bool.not_eq_true'] at hst ⊢; exact hst)] at hr
        exact absurd hr (by simp)
  · intro rest e hp
    unfold TimeEntry.from_str
    simp only [hp]

/-- C5 witness: the entry of the counterexample line is returned by
`TimeEntry::from_str` exactly as parsed from the matching prefix. -/
theorem c5_full_consumption_witness :
    TimeEntry.from_str env0 "inc 20220101T120000Z - 20220101T130000Z # a\"b"
      = .ok ⟨⟨1641038400, some 1641042000⟩, ["a"], 0⟩ :=
  (c5_full_consumption env0 0 "inc 20220101T120000Z - 20220101T130000Z # a\"b").2
    ['"', 'b'] ⟨⟨1641038400, some 1641042000⟩, ["a"], 0⟩ (by decide)

theorem parse_date_shape {ds : List Char} {d : Int}
    (h : parse_date ds = some ([], d)) :
    ds ≠ [] ∧ ds.takeWhile (fun c => c != ' ') = ds
      ∧ parseDateTime (trimChars ds) = some d := by
  unfold parse_date map_opt at h
  cases htw1 : take_while1 (fun c => c != ' ') ds with
  | none =>
    rw [htw1] at h
    exact absurd h (by simp)
  | some x =>
    obtain ⟨rest, tok⟩ := x
    simp only [htw1] at h
    cases hf : parseDateTime (trimChars tok) with
    | none =>
      simp only [hf] at h
      exact absurd h (by simp)
    | some b =>
      simp only [hf, Option.some.injEq, Prod.mk.injEq] at h
      obtain ⟨h1, h2⟩ := h
      subst h1
      subst h2
      simp only [take_while1] at htw1
      by_cases he : (ds.takeWhile (fun c => c != ' ')).isEmpty = true
      · rw [if_pos he] at htw1
        simp at htw1
      · rw [if_neg he] at htw1
        simp only [Option.some.injEq, Prod.mk.injEq] at htw1
        obtain ⟨e1, e2⟩ := htw1
        have hle := takeWhile_length_le (fun c => c != ' ') ds
        have hlen : ds.length ≤ (ds.takeWhile (fun c => c != ' ')).length :=
          List.drop_eq_nil_iff.mp e1
        have htws : ds.takeWhile (fun c => c != ' ') = ds :=
          (List.takeWhile_prefix _).eq_of_length (by omega)
        refine ⟨?_, htws, ?_⟩
        · intro hds
          subst hds
          simp at he
        · rw [← e2, htws] at hf
          exact hf

theorem take_while1_no_space_append {ds tail : List Char} (hne : ds ≠ [])
    (htw : ds.takeWhile (fun c => c != ' ') = ds) :
    take_while1 (fun c => c != ' ') (ds ++ ' ' :: tail) = some (' ' :: tail, ds) := by
  have hlen : (ds.takeWhile (fun c => c != ' ')).length = ds.length := by rw [htw]
  have h1 : (ds ++ ' ' :: tail).takeWhile (fun c => c != ' ') = ds := by
    rw [List.takeWhile_append, if_pos hlen]
    simp [List.takeWhile]
  simp only [take_while1, h1, List.isEmpty_eq_false.mpr hne, Bool.false_eq_true, if_false]
  rw [List.drop_left]

theorem parse_date_append {ds tail : List Char} {d : Int}
    (h : parse_date ds = some ([], d)) :
    parse_date (ds ++ ' ' :: tail) = some (' ' :: tail, d) := by
  obtain ⟨hne, htw, hdt⟩ := parse_date_shape h
  simp only [parse_date, map_opt, take_while1_no_space_append hne htw, hdt]

theorem parse_range_open_full {env : PeriodEnv} {ds : List Char} {d : Int}
    (h : parse_date ds = some ([], d)) :
    parse_range env ds = some ([], Range.mk d none) := by
  unfold parse_range alt3 alt2
  have hb1 : map_res (separated_pair parse_date (ptag " - ".data) parse_date)
      (fun ft => Range.new ft.1 (some ft.2)) ds = none := by
    unfold map_res separated_pair
    simp only [h]
    rfl
  have hb2 : map_res parse_date (fun f => Range.new f none) ds
      = some ([], Range.mk d none) := by
    unfold map_res
    simp only [h]
    rfl
  simp only [hb1, hb2]

theorem parse_range_open_entry_rest {env : PeriodEnv} {ds : List Char} {d : Int}
    (h : parse_date ds = some ([], d)) :
    parse_range env (ds ++ " # tag1".data)
      = some (" # tag1".data, Range.mk d none) := by
  have hd2 : parse_date (ds ++ " # tag1".data) = some (" # tag1".data, d) :=
    @parse_date_append ds ("# tag1".data) d h
  unfold parse_range alt3 alt2
  have hb1 : map_res (separated_pair parse_date (ptag " - ".data) parse_date)
      (fun ft => Range.new ft.1 (some ft.2)) (ds ++ " # tag1".data) = none := by
    unfold map_res separated_pair
    simp only [hd2]
    rfl
  have hb2 : map_res parse_date (fun f => Range.new f none) (ds ++ " # tag1".data)
      = some (" # tag1".data, Range.mk d none) := by
    unfold map_res
    simp only [hd2]
    rfl
  simp only [hb1, hb2]

/-- C10: the requirement that an open range start at least one second in the
past is enforced only by the standalone `Range::from_str` — whose parse, when
the input is exactly a datetime `ds` denoting instant `d` with `now − d < 1s`,
fails with the "From must be less than now - 1s" check — and never during
entry-line parsing: `TimeEntry::from_str` accepts `inc <ds> # tag1` for every
parseable datetime `ds`, arbitrarily far in the future relative to `now`
(which it never consults), producing the open range starting at `d`. -/
theorem c10_open_start_check_only_standalone (env : PeriodEnv) (now : Int)
    (ds : List Char) (d : Int) (h : parse_date ds = some ([], d)) :
    (now - d < oneSecond →
      except_ok (Range.from_str env now (String.mk ds)) = false)
    ∧ TimeEntry.from_str env (String.mk ("inc ".data ++ (ds ++ " # tag1".data)))
        = .ok ⟨⟨d, none⟩, ["tag1"], 0⟩ := by
  constructor
  · intro hfut
    unfold Range.from_str
    simp only [@parse_range_open_full env ds d h]
    rw [if_neg (by simp)]
    rw [if_neg (by omega : ¬ oneSecond ≤ now - d)]
    rfl
  · unfold TimeEntry.from_str
    have hpe : parse_entry env ("inc ".data ++ (ds ++ " # tag1".data))
        = some ([], TimeEntry.mk ⟨d, none⟩ ["tag1"] 0) := by
      unfold parse_entry preceded
      have hp1 : ptag "inc ".data ("inc ".data ++ (ds ++ " # tag1".data))
          = some (ds ++ " # tag1".data, "inc ".data) := by
        unfold ptag
        rw [if_pos (List.isPrefixOf_iff_prefix.mpr (List.prefix_append _ _)),
          List.drop_left]
      simp only [hp1]
      unfold pmap separated_pair
      simp only [@parse_range_open_entry_rest env ds d h]
      rfl
    simp only [hpe]

/-- C10 witness: the datetime 3000-01-01T00:00:00Z is far in the future of
now = 0; standalone range parsing rejects it, while the same datetime inside
an entry line is accepted with an open range starting there. -/
theorem c10_open_start_check_only_standalone_witness :
    except_ok (Range.from_str env0 0 (String.mk "30000101T000000Z".data)) = false
    ∧ TimeEntry.from_str env0
        (String.mk ("inc ".data ++ ("30000101T000000Z".data ++ " # tag1".data)))
      = .ok ⟨⟨32503680000, none⟩, ["tag1"], 0⟩ :=
  ⟨(c10_open_start_check_only_standalone env0 0 "30000101T000000Z".data
      32503680000 (by decide)).1 (by decide),
   (c10_open_start_check_only_standalone env0 0 "30000101T000000Z".data
      32503680000 (by decide)).2⟩

/-- Civil calendar date, the year/month/day view chrono's `Date<Local>`
exposes through `year()`, `month()`, `day()`. -/
structure Date where
  year : Int
  month : Int
  day : Int
deriving DecidableEq, Repr

/-- The calendar day preceding `d`: the observable effect on the
year/month/day fields of chrono's `date - Duration::days(1)`. -/
def Date.pred (d : Date) : Date :=
  if d.day > 1 then ⟨d.year, d.month, d.day - 1⟩
  else if d.month > 1 then ⟨d.year, d.month - 1, days_in_month d.year (d.month - 1)⟩
  else ⟨d.year - 1, 12, 31⟩

/-- Subtraction of whole days, as iterated `pred`. -/
def Date.sub_days : Date → Nat → Date
  | d, 0 => d
  | d, n + 1 => (d.pred).sub_days n

/-- The loop of `Range::last_month` (src/data.rs lines 237-244): walk backward
in 15-day jumps while the month number differs from `target`, which the caller
computes as `this_month - 1` in unsigned arithmetic. The fuel makes the loop a
total function returning `none` when it runs out; the January theorem below
holds for EVERY fuel, showing the real loop never exits there: the target is
0 while month numbers stay in 1..12, so the source keeps subtracting 15 days
until chrono's date arithmetic fails. -/
def last_month_walk : Nat → Date → Int → Option Date
  | 0, _, _ => none
  | fuel + 1, cur, target =>
    if cur.month = target then some cur
    else last_month_walk fuel (cur.sub_days 15) target

/-- Model of the walk of `Range::last_month`, with `Local::today()` passed
explicitly; the subsequent `Range::month` call is irrelevant whenever the walk
does not terminate. -/
def last_month_start (today : Date) (fuel : Nat) : Option Date :=
  last_month_walk fuel today (today.month - 1)

theorem pred_month_mem (d : Date) (h1 : 1 ≤ d.month) (h2 : d.month ≤ 12) :
    1 ≤ (Date.pred d).month ∧ (Date.pred d).month ≤ 12 := by
  unfold Date.pred
  split_ifs <;> constructor <;> simp <;> omega

theorem sub_days_month_mem (n : Nat) :
    ∀ d : Date, 1 ≤ d.month → d.month ≤ 12 →
      1 ≤ (d.sub_days n).month ∧ (d.sub_days n).month ≤ 12 := by
  induction n with
  | zero => intro d h1 h2; exact ⟨h1, h2⟩
  | succ m ih =>
    intro d h1 h2
    obtain ⟨p1, p2⟩ := pred_month_mem d h1 h2
    exact ih _ p1 p2

/-- C6: `Range::last_month` does NOT terminate for a January date: with
`this_month = 1` the unsigned target month is `1 - 1 = 0`, which no calendar
month number ever equals, so the backward 15-day walk never stops — for
January 15, 2023 the walk returns nothing for every fuel. For a date outside
January (May 15, 2023) the walk does reach the preceding month as intended. -/
theorem c6_last_month_january_never_exits :
    (∀ fuel : Nat, last_month_start ⟨2023, 1, 15⟩ fuel = none)
    ∧ last_month_start ⟨2023, 5, 15⟩ 2 = some ⟨2023, 4, 30⟩ := by
  constructor
  · have key : ∀ (fuel : Nat) (d : Date), 1 ≤ d.month → d.month ≤ 12 →
        last_month_walk fuel d 0 = none := by
      intro fuel
      induction fuel with
      | zero => intro d _ _; rfl
      | succ m ih =>
        intro d h1 h2
        unfold last_month_walk
        rw [if_neg (by omega)]
        obtain ⟨p1, p2⟩ := sub_days_month_mem 15 d h1 h2
        exact ih _ p1 p2
    intro fuel
    unfold last_month_start
    have ht : (Date.mk 2023 1 15).month - 1 = 0 := by decide
    rw [ht]
    exact key fuel _ (by decide) (by decide)
  · decide
